import Mathlib

/-!
Verification of the SecureAgentBase repository's Remote-Config validation /
sync scripts and its React glue modules, via a shallow embedding in Lean.

JavaScript objects are modelled as association lists (`List (String × α)`);
`JSON.parse` never produces duplicate keys, so theorems that need key
uniqueness take a `Nodup` hypothesis.  JavaScript `undefined` is modelled
with `Option`.  External effects (the GitHub CLI, the Firebase REST API,
`localStorage`, …) are modelled as explicit environment records holding the
responses the real calls would produce.
-/

set_option maxHeartbeats 1000000

namespace SecureAgentBase

/-- First-match association-list lookup: `m[k]` on a JS object. -/
def alookup {α : Type} (m : List (String × α)) (k : String) : Option α :=
  (m.find? (fun p => p.1 == k)).map (fun p => p.2)

/-- JS object property write `m[k] = v`: overwrite in place if the key is
present, otherwise append (JS insertion order). -/
def setKey {α : Type} (m : List (String × α)) (k : String) (v : α) : List (String × α) :=
  if m.any (fun p => p.1 == k) then
    m.map (fun p => if p.1 == k then (k, v) else p)
  else
    m ++ [(k, v)]

/-- A Remote Config value object `{ value: … }`; the `value` field may be
absent (`undefined`). -/
structure RCValue where
  value : Option String
deriving DecidableEq, Repr

/-- A Remote Config parameter: `defaultValue` and (remote side) inline
`conditionalValues`. -/
structure RCParam where
  defaultValue : Option RCValue
  conditionalValues : List (String × RCValue)
deriving DecidableEq, Repr

/-- A Remote Config condition `{ name, expression }`. -/
structure RCCondition where
  name : String
  expression : Option String
deriving DecidableEq, Repr

/-- A Remote Config template object.  The local template additionally has a
top-level `conditionalValues` map (param key → condition name → value); on
the remote object that field is simply empty. -/
structure RCConfig where
  parameters : List (String × RCParam)
  conditions : List RCCondition
  conditionalValues : List (String × List (String × RCValue))
deriving DecidableEq, Repr

/-- `${o}` in a JS template literal for a possibly-undefined string. -/
def showOpt (o : Option String) : String :=
  o.getD "undefined"

/-- Errors pushed for one parameter's conditional values by `validate`
(validate-remote-config.cjs, inner `for (const conditionName of
Object.keys(localConditionals))` loop, lines 77–83). -/
def condValErrors (paramKey : String) (localConditionals remoteConditionals : List (String × RCValue)) :
    List String :=
  localConditionals.flatMap (fun cv =>
    let conditionName := cv.1
    match alookup remoteConditionals conditionName with
    | none => [s!"Parameter \"{paramKey}\" is missing condition \"{conditionName}\""]
    | some rv =>
        if cv.2.value ≠ rv.value then
          let lval := showOpt cv.2.value
          let rval := showOpt rv.value
          [s!"Parameter \"{paramKey}\" condition \"{conditionName}\" has wrong value: expected \"{lval}\", got \"{rval}\""]
        else [])

/-- Errors pushed for one local parameter entry by `validate`
(validate-remote-config.cjs lines 60–84). -/
def paramErrors (remoteParams : List (String × RCParam))
    (localConditionalValues : List (String × List (String × RCValue)))
    (p : String × RCParam) : List String :=
  let paramKey := p.1
  match alookup remoteParams paramKey with
  | none => [s!"Parameter \"{paramKey}\" is missing in Remote Config"]
  | some remoteParam =>
      let localDefault := p.2.defaultValue.bind RCValue.value
      let remoteDefault := remoteParam.defaultValue.bind RCValue.value
      let defErr :=
        if localDefault ≠ remoteDefault then
          let lval := showOpt localDefault
          let rval := showOpt remoteDefault
          [s!"Parameter \"{paramKey}\" has wrong default: expected \"{lval}\", got \"{rval}\""]
        else []
      let localConditionals := (alookup localConditionalValues paramKey).getD []
      defErr ++ condValErrors paramKey localConditionals remoteParam.conditionalValues

/-- Errors pushed for one local condition by `validate`
(validate-remote-config.cjs lines 92–99): the first remote condition with
the same name must exist and carry an identical expression. -/
def condErrors (remoteConditions : List RCCondition) (c : RCCondition) : List String :=
  match remoteConditions.find? (fun x => x.name == c.name) with
  | none => [s!"Condition \"{c.name}\" is missing in Remote Config"]
  | some remoteCond =>
      if c.expression ≠ remoteCond.expression then
        [s!"Condition \"{c.name}\" has different expression"]
      else []

/-- `validate(localConfig, remoteConfig)` of the standalone validator
(validate-remote-config.cjs lines 50–102).  Returns `(errors, warnings)`. -/
def validate (lc rc : RCConfig) : List String × List String :=
  (lc.parameters.flatMap (paramErrors rc.parameters lc.conditionalValues)
      ++ lc.conditions.flatMap (condErrors rc.conditions),
   rc.parameters.flatMap (fun p =>
      if (alookup lc.parameters p.1).isSome then []
      else [s!"Remote Config has extra parameter \"{p.1}\" not in local config"]))

/-- Errors pushed for one parameter's conditional values by the deploy
script's `validateRemoteConfig` (lines 272–278): same checks as
`condValErrors`, but the wrong-value message omits the expected/got
values. -/
def condValErrorsDeploy (paramKey : String)
    (localConditionals remoteConditionals : List (String × RCValue)) : List String :=
  localConditionals.flatMap (fun cv =>
    let conditionName := cv.1
    match alookup remoteConditionals conditionName with
    | none => [s!"Parameter \"{paramKey}\" is missing condition \"{conditionName}\""]
    | some rv =>
        if cv.2.value ≠ rv.value then
          [s!"Parameter \"{paramKey}\" condition \"{conditionName}\" has wrong value"]
        else [])

/-- Errors pushed for one parameter entry by the deploy script's
`validateRemoteConfig` (lines 255–279). -/
def paramErrorsDeploy (remoteParams : List (String × RCParam))
    (localConditionalValues : List (String × List (String × RCValue)))
    (p : String × RCParam) : List String :=
  let paramKey := p.1
  match alookup remoteParams paramKey with
  | none => [s!"Parameter \"{paramKey}\" is missing in Remote Config"]
  | some remoteParam =>
      let localDefault := p.2.defaultValue.bind RCValue.value
      let remoteDefault := remoteParam.defaultValue.bind RCValue.value
      let defErr :=
        if localDefault ≠ remoteDefault then
          let lval := showOpt localDefault
          let rval := showOpt remoteDefault
          [s!"Parameter \"{paramKey}\" has wrong default: expected \"{lval}\", got \"{rval}\""]
        else []
      let localConditionals := (alookup localConditionalValues paramKey).getD []
      defErr ++ condValErrorsDeploy paramKey localConditionals remoteParam.conditionalValues

/-- The deploy script's `validateRemoteConfig` comparison core (lines
248–288), applied to the already-fetched local and remote templates.  Unlike
`validate`, the condition loop (lines 281–286) only checks that each local
condition name exists remotely — it never compares expressions. -/
def validateRemoteConfigErrors (lc rc : RCConfig) : List String :=
  lc.parameters.flatMap (paramErrorsDeploy rc.parameters lc.conditionalValues)
    ++ lc.conditions.flatMap (fun c =>
        match rc.conditions.find? (fun x => x.name == c.name) with
        | none => [s!"Condition \"{c.name}\" is missing in Remote Config"]
        | some _ => [])

/-- One iteration of the `conditionalValues` merge loop of
`syncRemoteConfig` (deploy script lines 306–314): ensure the parameter
exists (creating it with defaultValue `"control"` otherwise) and overwrite
its inline `conditionalValues` with the local map for it. -/
def mergeStep (params : List (String × RCParam))
    (entry : String × List (String × RCValue)) : List (String × RCParam) :=
  let paramKey := entry.1
  let base :=
    match alookup params paramKey with
    | some p => p
    | none => { defaultValue := some { value := some "control" }, conditionalValues := [] }
  setKey params paramKey { base with conditionalValues := entry.2 }

/-- The template built by `syncRemoteConfig` (deploy script lines 300–315)
and pushed with a PUT: local conditions and parameters, with the local
top-level `conditionalValues` merged into the parameters; a parameter that
only appears under `conditionalValues` is created with defaultValue
`"control"`.  The published remote object has no top-level
`conditionalValues`. -/
def buildTemplateConfig (config : RCConfig) : RCConfig :=
  { parameters := config.conditionalValues.foldl mergeStep config.parameters,
    conditions := config.conditions, conditionalValues := [] }

/-! ### C1: characterization of `validate` -/

/-- The success condition claimed for `validate`: every local parameter key
exists remotely with an equal `defaultValue.value`, every conditional value
the local config lists for that parameter exists remotely with an equal
value, and every local condition exists remotely under the same name with an
identical expression. -/
def ValidClaim (lc rc : RCConfig) : Prop :=
  (∀ p ∈ lc.parameters, ∃ rp, alookup rc.parameters p.1 = some rp
      ∧ p.2.defaultValue.bind RCValue.value = rp.defaultValue.bind RCValue.value
      ∧ ∀ cv ∈ (alookup lc.conditionalValues p.1).getD [], ∃ rv,
          alookup rp.conditionalValues cv.1 = some rv ∧ cv.2.value = rv.value)
  ∧ (∀ c ∈ lc.conditions, ∃ rcond,
      rc.conditions.find? (fun x => x.name == c.name) = some rcond
      ∧ c.expression = rcond.expression)

lemma condValErrors_eq_nil_iff (paramKey : String)
    (lcs rcs : List (String × RCValue)) :
    condValErrors paramKey lcs rcs = []
      ↔ ∀ cv ∈ lcs, ∃ rv, alookup rcs cv.1 = some rv ∧ cv.2.value = rv.value := by
  rw [condValErrors, List.flatMap_eq_nil_iff]
  refine forall₂_congr (fun cv _ => ?_)
  cases h : alookup rcs cv.1 with
  | none => simp [h]
  | some rv =>
      by_cases hv : cv.2.value = rv.value
      · simp [h, hv]
      · simp [h, hv]

lemma paramErrors_eq_nil_iff (remoteParams : List (String × RCParam))
    (lcv : List (String × List (String × RCValue))) (p : String × RCParam) :
    paramErrors remoteParams lcv p = []
      ↔ ∃ rp, alookup remoteParams p.1 = some rp
          ∧ p.2.defaultValue.bind RCValue.value = rp.defaultValue.bind RCValue.value
          ∧ ∀ cv ∈ (alookup lcv p.1).getD [], ∃ rv,
              alookup rp.conditionalValues cv.1 = some rv ∧ cv.2.value = rv.value := by
  cases h : alookup remoteParams p.1 with
  | none => simp [paramErrors, h]
  | some rp =>
      rw [paramErrors]
      simp only [h, List.append_eq_nil, condValErrors_eq_nil_iff, Option.some.injEq]
      by_cases hd : p.2.defaultValue.bind RCValue.value = rp.defaultValue.bind RCValue.value
      · simp [hd]
      · simp [hd]

lemma condErrors_eq_nil_iff (remoteConditions : List RCCondition) (c : RCCondition) :
    condErrors remoteConditions c = []
      ↔ ∃ rcond, remoteConditions.find? (fun x => x.name == c.name) = some rcond
          ∧ c.expression = rcond.expression := by
  cases h : remoteConditions.find? (fun x => x.name == c.name) with
  | none => simp [condErrors, h]
  | some rcond =>
      by_cases he : c.expression = rcond.expression
      · simp [condErrors, h, he]
      · simp [condErrors, h, he]

lemma alookup_isSome_of_mem {α : Type} {m : List (String × α)} {p : String × α}
    (hp : p ∈ m) : (alookup m p.1).isSome := by
  have h1 : (m.find? (fun q => q.1 == p.1)).isSome :=
    List.find?_isSome.mpr ⟨p, hp, by simp⟩
  rcases Option.isSome_iff_exists.mp h1 with ⟨q, hq⟩
  simp [alookup, hq]

lemma find?_filter_key {α : Type} (m : List (String × α)) (keep : String × α → Bool)
    (k : String) (h : ∀ x ∈ m, x.1 = k → keep x = true) :
    (m.filter keep).find? (fun p => p.1 == k) = m.find? (fun p => p.1 == k) := by
  induction m with
  | nil => rfl
  | cons a tl ih =>
      have ihh := ih (fun x hx => h x (List.mem_cons_of_mem a hx))
      by_cases ha : a.1 = k
      · have hk : keep a = true := h a (List.mem_cons_self a tl) ha
        rw [List.filter_cons_of_pos hk,
          List.find?_cons_of_pos _ (by simpa using ha),
          List.find?_cons_of_pos _ (by simpa using ha)]
      · by_cases hk : keep a = true
        · rw [List.filter_cons_of_pos hk,
            List.find?_cons_of_neg _ (by simpa using ha),
            List.find?_cons_of_neg _ (by simpa using ha)]
          exact ihh
        · rw [List.filter_cons_of_neg (by simpa using hk),
            List.find?_cons_of_neg _ (by simpa using ha)]
          exact ihh

lemma alookup_filter {α : Type} (m : List (String × α)) (keep : String × α → Bool)
    (k : String) (h : ∀ x ∈ m, x.1 = k → keep x = true) :
    alookup (m.filter keep) k = alookup m k := by
  rw [alookup, alookup, find?_filter_key m keep k h]

/-- C1: `validate(localConfig, remoteConfig)` returns an empty errors list
iff every local parameter key exists remotely with an equal
`defaultValue.value`, every local conditional value for that parameter
exists remotely with an equal value, and every local condition exists
remotely under the same name with an identical expression; moreover remote
parameters absent from the local config never affect the errors list (they
only contribute warnings, one per extra parameter). -/
theorem validate_errors_empty_iff (lc rc : RCConfig) :
    ((validate lc rc).1 = [] ↔ ValidClaim lc rc)
    ∧ (validate lc { rc with
          parameters := rc.parameters.filter (fun p => (alookup lc.parameters p.1).isSome) }).1
        = (validate lc rc).1
    ∧ (∀ p ∈ rc.parameters, alookup lc.parameters p.1 = none →
        (s!"Remote Config has extra parameter \"{p.1}\" not in local config")
          ∈ (validate lc rc).2) := by
  refine ⟨?_, ?_, ?_⟩
  · show lc.parameters.flatMap (paramErrors rc.parameters lc.conditionalValues)
        ++ lc.conditions.flatMap (condErrors rc.conditions) = [] ↔ _
    simp only [List.append_eq_nil, List.flatMap_eq_nil_iff, ValidClaim]
    exact and_congr
      (forall₂_congr (fun p _ => paramErrors_eq_nil_iff rc.parameters lc.conditionalValues p))
      (forall₂_congr (fun c _ => condErrors_eq_nil_iff rc.conditions c))
  · show lc.parameters.flatMap
          (paramErrors (rc.parameters.filter (fun p => (alookup lc.parameters p.1).isSome))
            lc.conditionalValues)
        ++ lc.conditions.flatMap (condErrors rc.conditions)
      = lc.parameters.flatMap (paramErrors rc.parameters lc.conditionalValues)
        ++ lc.conditions.flatMap (condErrors rc.conditions)
    refine congrArg₂ (· ++ ·) (List.flatMap_congr ?_) rfl
    intro p hp
    have hl : alookup
        (rc.parameters.filter (fun q => (alookup lc.parameters q.1).isSome)) p.1
        = alookup rc.parameters p.1 := by
      refine alookup_filter _ _ _ (fun x _ hx => ?_)
      rw [hx]
      exact alookup_isSome_of_mem hp
    simp only [paramErrors, hl]
  · intro p hp hnone
    show _ ∈ rc.parameters.flatMap (fun p =>
      if (alookup lc.parameters p.1).isSome then []
      else [s!"Remote Config has extra parameter \"{p.1}\" not in local config"])
    refine List.mem_flatMap.mpr ⟨p, hp, ?_⟩
    rw [hnone]
    simp

/-- C1 witness: the characterization evaluated at a pair of concrete
configs, with the extra-parameter clause discharged on a concrete extra
remote parameter. -/
theorem validate_errors_empty_iff_witness :
    (s!"Remote Config has extra parameter \"extra\" not in local config")
      ∈ (validate { parameters := [], conditions := [], conditionalValues := [] }
          { parameters := [("extra", { defaultValue := some { value := some "on" }, conditionalValues := [] })],
            conditions := [], conditionalValues := [] }).2 :=
  (validate_errors_empty_iff _ _).2.2
    ("extra", { defaultValue := some { value := some "on" }, conditionalValues := [] })
    (by decide) (by decide)

/-! ### C3: `validate` versus the deploy script's `validateRemoteConfig` -/

lemma condValErrorsDeploy_eq_nil_iff (paramKey : String)
    (lcs rcs : List (String × RCValue)) :
    condValErrorsDeploy paramKey lcs rcs = []
      ↔ ∀ cv ∈ lcs, ∃ rv, alookup rcs cv.1 = some rv ∧ cv.2.value = rv.value := by
  rw [condValErrorsDeploy, List.flatMap_eq_nil_iff]
  refine forall₂_congr (fun cv _ => ?_)
  cases h : alookup rcs cv.1 with
  | none => simp [h]
  | some rv =>
      by_cases hv : cv.2.value = rv.value
      · simp [h, hv]
      · simp [h, hv]

lemma paramErrorsDeploy_eq_nil_iff (remoteParams : List (String × RCParam))
    (lcv : List (String × List (String × RCValue))) (p : String × RCParam) :
    paramErrorsDeploy remoteParams lcv p = []
      ↔ ∃ rp, alookup remoteParams p.1 = some rp
          ∧ p.2.defaultValue.bind RCValue.value = rp.defaultValue.bind RCValue.value
          ∧ ∀ cv ∈ (alookup lcv p.1).getD [], ∃ rv,
              alookup rp.conditionalValues cv.1 = some rv ∧ cv.2.value = rv.value := by
  cases h : alookup remoteParams p.1 with
  | none => simp [paramErrorsDeploy, h]
  | some rp =>
      rw [paramErrorsDeploy]
      simp only [h, List.append_eq_nil, condValErrorsDeploy_eq_nil_iff, Option.some.injEq]
      by_cases hd : p.2.defaultValue.bind RCValue.value = rp.defaultValue.bind RCValue.value
      · simp [hd]
      · simp [hd]

/-- A local config whose only condition carries expression `"A"`. -/
def lcCondA : RCConfig :=
  { parameters := [], conditions := [{ name := "c", expression := some "A" }],
    conditionalValues := [] }

/-- A remote config holding the same condition name with expression `"B"`. -/
def rcCondB : RCConfig :=
  { parameters := [], conditions := [{ name := "c", expression := some "B" }],
    conditionalValues := [] }

/-- C3 counterexample: the two validators are not the same routine.  When a
condition exists remotely under the same name but with a different
expression, `validate` reports an error while the deploy script's
`validateRemoteConfig` reports none, so the two errors lists differ. -/
theorem validate_ne_validateRemoteConfig :
    (validate lcCondA rcCondB).1 = ["Condition \"c\" has different expression"]
    ∧ validateRemoteConfigErrors lcCondA rcCondB = []
    ∧ (validate lcCondA rcCondB).1 ≠ validateRemoteConfigErrors lcCondA rcCondB := by
  refine ⟨rfl, rfl, ?_⟩
  decide

/-- C3 amended: the deploy script's `validateRemoteConfig` detects a subset
of the mismatches `validate` detects — whenever `validate` reports no
errors, `validateRemoteConfig` reports none either (the converse fails:
`validate` additionally compares condition expressions, and its
wrong-conditional-value message additionally spells out the expected and
actual values). -/
theorem validateRemoteConfig_errors_of_validate (lc rc : RCConfig)
    (h : (validate lc rc).1 = []) : validateRemoteConfigErrors lc rc = [] := by
  have h' : lc.parameters.flatMap (paramErrors rc.parameters lc.conditionalValues)
      ++ lc.conditions.flatMap (condErrors rc.conditions) = [] := h
  rw [List.append_eq_nil, List.flatMap_eq_nil_iff, List.flatMap_eq_nil_iff] at h'
  rw [validateRemoteConfigErrors, List.append_eq_nil,
    List.flatMap_eq_nil_iff, List.flatMap_eq_nil_iff]
  constructor
  · intro p hp
    exact (paramErrorsDeploy_eq_nil_iff rc.parameters lc.conditionalValues p).mpr
      ((paramErrors_eq_nil_iff rc.parameters lc.conditionalValues p).mp (h'.1 p hp))
  · intro c hc
    rcases (condErrors_eq_nil_iff rc.conditions c).mp (h'.2 c hc) with ⟨rcond, hfind, _⟩
    simp [hfind]

/-- C3 amended witness: concrete agreeing configs where `validate` is clean
and hence so is `validateRemoteConfig`. -/
theorem validateRemoteConfig_errors_of_validate_witness :
    (validate lcCondA lcCondA).1 = []
    ∧ validateRemoteConfigErrors lcCondA lcCondA = [] :=
  ⟨rfl, validateRemoteConfig_errors_of_validate lcCondA lcCondA rfl⟩

/-! ### C5: `parseErrors` (deploy script lines 360–386)

The three regexes of `parseErrors` are embedded as character-level matchers
over `List Char`.  Each matcher tries to match its pattern at the start of a
character list and returns the length consumed (plus, for the dependency
pattern, the captured module name).  A generic scanner `gscan` then
reproduces JS global matching: try every position from the left, and resume
after the end of each match. -/

/-- Case-insensitive literal prefix test; `pat` is given in lower case
(models the regex `i` flag on a literal). -/
def ciHasPrefix (pat : List Char) (s : List Char) : Bool :=
  (s.take pat.length).map Char.toLower == pat

/-- Length of the leading run of decimal digits (regex `\d*`). -/
def takeDigits (s : List Char) : Nat :=
  (s.takeWhile Char.isDigit).length

/-- Match `Line \d+:\d+` (case-insensitively) at the start of `s`; returns
the number of characters consumed. -/
def lineTailLen (s : List Char) : Option Nat :=
  if ciHasPrefix "line ".toList s then
    let s1 := s.drop 5
    let d1 := takeDigits s1
    if d1 = 0 then none
    else
      match s1.drop d1 with
      | ':' :: s3 =>
          let d2 := takeDigits s3
          if d2 = 0 then none else some (5 + d1 + 1 + d2)
      | _ => none
  else none

/-- The lazy middle `.*?` of the eslint pattern: consume as few non-newline
characters as possible until `Line \d+:\d+` matches.  `acc` counts the
characters already consumed. -/
def eslintMid : List Char → Nat → Option Nat
  | s, acc =>
    match lineTailLen s with
    | some m => some (acc + m)
    | none =>
        match s with
        | [] => none
        | c :: tl => if c = '\n' ∨ c = '\r' then none else eslintMid tl (acc + 1)

/-- Match `/\[eslint\].*?Line \d+:\d+/i` at the start of `s`. -/
def eslintMatchLen (s : List Char) : Option Nat :=
  if ciHasPrefix "[eslint]".toList s then
    (eslintMid (s.drop 8) 0).map (fun n => 8 + n)
  else none

/-- Match `/Failed to compile/i` at the start of `s`. -/
def buildMatchLen (s : List Char) : Option Nat :=
  if ciHasPrefix "failed to compile".toList s then some 17 else none

/-- Match `/Cannot find module ['"](\@?[^'"]+)['"]/i` at the start of `s`;
returns the length consumed together with the captured module name. -/
def depMatchAt (s : List Char) : Option (Nat × String) :=
  if ciHasPrefix "cannot find module ".toList s then
    match s.drop 19 with
    | q :: s2 =>
        if q = '\'' ∨ q = '"' then
          let name := s2.takeWhile (fun c => c ≠ '\'' ∧ c ≠ '"')
          if name.length = 0 then none
          else
            match s2.drop name.length with
            | q2 :: _ =>
                if q2 = '\'' ∨ q2 = '"' then
                  some (19 + 1 + name.length + 1, String.mk name)
                else none
            | [] => none
        else none
    | [] => none
  else none

/-- JS global regex matching: try the matcher at each position from the
left; on a match, record its payload and resume right after it (a zero-width
match advances by one, as `RegExp.exec` bumps `lastIndex`).  `fuel` bounds
the recursion and is initialized to the string length, which the scan never
exceeds, so the fuel-exhausted branch is unreachable. -/
def gscanAux {α : Type} (f : List Char → Option (Nat × α)) : Nat → List Char → List α
  | _, [] => []
  | 0, _ :: _ => []
  | fuel + 1, c :: tl =>
      match f (c :: tl) with
      | some (len, a) => a :: gscanAux f fuel ((c :: tl).drop (max len 1))
      | none => gscanAux f fuel tl

/-- All payloads of the global matches of `f` over `s`, left to right. -/
def gscan {α : Type} (f : List Char → Option (Nat × α)) (s : List Char) : List α :=
  gscanAux f s.length s

/-- `[...new Set(l)]`: distinct elements in order of first occurrence.
`fuel` bounds the recursion (initialized to the list length, never
exceeded). -/
def dedupAux : Nat → List String → List String
  | _, [] => []
  | 0, _ :: _ => []
  | fuel + 1, x :: xs => x :: dedupAux fuel (xs.filter (fun y => y ≠ x))

/-- `[...new Set(l)]` (deploy script line 382). -/
def dedupFirst (l : List String) : List String :=
  dedupAux l.length l

/-- One entry of the list `parseErrors` returns: `{ type, matches }`.  The
source field `matches` is a reserved token in Lean, so it is called
`matchList` here. -/
structure ParsedError where
  type : String
  matchList : List String
deriving DecidableEq, Repr

/-- The eslint regex as a position matcher recording the matched
substring (what `logs.match(eslintPattern)` collects). -/
def eslintScanner (s : List Char) : Option (Nat × String) :=
  (eslintMatchLen s).map (fun n => (n, String.mk (s.take n)))

/-- The build regex as a position matcher recording the matched substring. -/
def buildScanner (s : List Char) : Option (Nat × String) :=
  (buildMatchLen s).map (fun n => (n, String.mk (s.take n)))

/-- `parseErrors(logs)` (deploy script lines 360–386). -/
def parseErrors (logs : String) : List ParsedError :=
  let cs := logs.toList
  let eslintMatches := gscan eslintScanner cs
  let buildMatches := gscan buildScanner cs
  let depMatches := gscan depMatchAt cs
  (if eslintMatches ≠ [] then [{ type := "eslint", matchList := eslintMatches }] else [])
    ++ (if buildMatches ≠ [] then [{ type := "build", matchList := buildMatches }] else [])
    ++ (if depMatches ≠ [] then [{ type := "dependency", matchList := dedupFirst depMatches }] else [])

lemma gscanAux_eq_nil_iff {α : Type} (f : List Char → Option (Nat × α))
    (hnil : f [] = none) :
    ∀ fuel s, s.length ≤ fuel → (gscanAux f fuel s = [] ↔ ∀ i, f (s.drop i) = none) := by
  intro fuel
  induction fuel with
  | zero =>
      intro s hs
      have : s = [] := List.eq_nil_of_length_eq_zero (Nat.le_zero.mp hs)
      subst this
      simp [gscanAux, hnil]
  | succ fuel ih =>
      intro s hs
      cases s with
      | nil => simp [gscanAux, hnil]
      | cons c tl =>
          cases h0 : f (c :: tl) with
          | some pa =>
              constructor
              · intro h
                exfalso
                rw [show gscanAux f (fuel + 1) (c :: tl)
                    = pa.2 :: gscanAux f fuel ((c :: tl).drop (max pa.1 1)) by rw [gscanAux, h0]] at h
                exact List.cons_ne_nil _ _ h
              · intro h
                exact absurd (h 0) (by simp [h0])
          | none =>
              have hstep : gscanAux f (fuel + 1) (c :: tl) = gscanAux f fuel tl := by
                rw [gscanAux, h0]
              rw [hstep, ih tl (Nat.le_of_succ_le_succ hs)]
              constructor
              · intro h i
                cases i with
                | zero => exact h0
                | succ j => exact h j
              · intro h i
                exact h (i + 1)

lemma gscan_eq_nil_iff {α : Type} (f : List Char → Option (Nat × α))
    (hnil : f [] = none) (s : List Char) :
    gscan f s = [] ↔ ∀ i, f (s.drop i) = none :=
  gscanAux_eq_nil_iff f hnil s.length s (Nat.le_refl _)

lemma gscan_ne_nil_iff {α : Type} (f : List Char → Option (Nat × α))
    (hnil : f [] = none) (s : List Char) :
    gscan f s ≠ [] ↔ ∃ i, (f (s.drop i)).isSome := by
  rw [Ne, gscan_eq_nil_iff f hnil s]
  push_neg
  refine exists_congr (fun i => ?_)
  cases f (s.drop i) <;> simp

lemma dedupAux_mem : ∀ fuel (l : List String), l.length ≤ fuel →
    ∀ x, x ∈ dedupAux fuel l ↔ x ∈ l := by
  intro fuel
  induction fuel with
  | zero =>
      intro l hl x
      have : l = [] := List.eq_nil_of_length_eq_zero (Nat.le_zero.mp hl)
      subst this
      simp [dedupAux]
  | succ fuel ih =>
      intro l hl x
      cases l with
      | nil => simp [dedupAux]
      | cons a tl =>
          have hlen : (tl.filter (fun y => y ≠ a)).length ≤ fuel :=
            Nat.le_trans (List.length_filter_le _ _) (Nat.le_of_succ_le_succ hl)
          rw [dedupAux]
          by_cases hx : x = a
          · subst hx
            simp
          · simp only [List.mem_cons, hx, false_or,
              ih (tl.filter (fun y => y ≠ a)) hlen x, List.mem_filter]
            simp [hx]

lemma dedupAux_nodup : ∀ fuel (l : List String), l.length ≤ fuel →
    (dedupAux fuel l).Nodup := by
  intro fuel
  induction fuel with
  | zero =>
      intro l hl
      have : l = [] := List.eq_nil_of_length_eq_zero (Nat.le_zero.mp hl)
      subst this
      simp [dedupAux]
  | succ fuel ih =>
      intro l hl
      cases l with
      | nil => simp [dedupAux]
      | cons a tl =>
          have hlen : (tl.filter (fun y => y ≠ a)).length ≤ fuel :=
            Nat.le_trans (List.length_filter_le _ _) (Nat.le_of_succ_le_succ hl)
          rw [dedupAux]
          refine List.nodup_cons.mpr ⟨?_, ih _ hlen⟩
          intro hmem
          have := (dedupAux_mem fuel _ hlen a).mp hmem
          rw [List.mem_filter] at this
          simpa using this.2

lemma dedupAux_sublist : ∀ fuel (l : List String), (dedupAux fuel l).Sublist l := by
  intro fuel
  induction fuel with
  | zero =>
      intro l
      cases l <;> simp [dedupAux]
  | succ fuel ih =>
      intro l
      cases l with
      | nil => simp [dedupAux]
      | cons a tl =>
          rw [dedupAux]
          exact List.Sublist.cons₂ a
            ((ih (tl.filter (fun y => y ≠ a))).trans (List.filter_sublist tl))

lemma indexOf_filter_lt (p : String → Bool) :
    ∀ (xs : List String) (a b : String), a ∈ xs.filter p → b ∈ xs.filter p →
      (xs.filter p).indexOf a < (xs.filter p).indexOf b →
      xs.indexOf a < xs.indexOf b := by
  intro xs
  induction xs with
  | nil => intro a b ha _ _; simp at ha
  | cons h t ih =>
      intro a b ha hb hlt
      by_cases hp : p h
      · rw [List.filter_cons_of_pos hp] at ha hb hlt
        by_cases hbh : b = h
        · subst hbh
          rw [List.indexOf_cons_self] at hlt
          exact absurd hlt (Nat.not_lt_zero _)
        · by_cases hah : a = h
          · subst hah
            rw [List.indexOf_cons_self]
            rw [List.indexOf_cons_ne _ (fun hc => hbh hc.symm)]
            exact Nat.succ_pos _
          · rw [List.indexOf_cons_ne _ (fun hc => hah hc.symm),
              List.indexOf_cons_ne _ (fun hc => hbh hc.symm)] at hlt
            rw [List.indexOf_cons_ne _ (fun hc => hah hc.symm),
              List.indexOf_cons_ne _ (fun hc => hbh hc.symm)]
            have ha' : a ∈ t.filter p := by
              rcases List.mem_cons.mp ha with h1 | h1
              · exact absurd h1 hah
              · exact h1
            have hb' : b ∈ t.filter p := by
              rcases List.mem_cons.mp hb with h1 | h1
              · exact absurd h1 hbh
              · exact h1
            exact Nat.succ_lt_succ (ih a b ha' hb' (Nat.lt_of_succ_lt_succ hlt))
      · rw [List.filter_cons_of_neg (by simpa using hp)] at ha hb hlt
        have hah : a ≠ h := by
          intro hc
          exact hp (by rw [← hc]; exact (List.mem_filter.mp ha).2)
        have hbh : b ≠ h := by
          intro hc
          exact hp (by rw [← hc]; exact (List.mem_filter.mp hb).2)
        rw [List.indexOf_cons_ne _ (fun hc => hah hc.symm),
          List.indexOf_cons_ne _ (fun hc => hbh hc.symm)]
        exact Nat.succ_lt_succ (ih a b ha hb hlt)

lemma dedupAux_pairwise : ∀ fuel (l : List String), l.length ≤ fuel →
    (dedupAux fuel l).Pairwise (fun a b => l.indexOf a < l.indexOf b) := by
  intro fuel
  induction fuel with
  | zero =>
      intro l hl
      have : l = [] := List.eq_nil_of_length_eq_zero (Nat.le_zero.mp hl)
      subst this
      simp [dedupAux]
  | succ fuel ih =>
      intro l hl
      cases l with
      | nil => simp [dedupAux]
      | cons a tl =>
          have hlen : (tl.filter (fun y => y ≠ a)).length ≤ fuel :=
            Nat.le_trans (List.length_filter_le _ _) (Nat.le_of_succ_le_succ hl)
          rw [dedupAux]
          refine List.Pairwise.cons ?_ ?_
          · intro y hy
            have hy' := (dedupAux_mem fuel _ hlen y).mp hy
            have hya : y ≠ a := by
              have := (List.mem_filter.mp hy').2
              simpa using this
            rw [List.indexOf_cons_self, List.indexOf_cons_ne _ (fun hc => hya hc.symm)]
            exact Nat.succ_pos _
          · have hpw := ih (tl.filter (fun y => y ≠ a)) hlen
            refine hpw.imp_of_mem ?_
            intro x y hx hy hlt
            have hx' := (dedupAux_mem fuel _ hlen x).mp hx
            have hy' := (dedupAux_mem fuel _ hlen y).mp hy
            have hxa : x ≠ a := by simpa using (List.mem_filter.mp hx').2
            have hya : y ≠ a := by simpa using (List.mem_filter.mp hy').2
            have := indexOf_filter_lt _ tl x y hx' hy' hlt
            rw [List.indexOf_cons_ne _ (fun hc => hxa hc.symm),
              List.indexOf_cons_ne _ (fun hc => hya hc.symm)]
            exact Nat.succ_lt_succ this

lemma dedupFirst_mem (l : List String) (x : String) : x ∈ dedupFirst l ↔ x ∈ l :=
  dedupAux_mem l.length l (Nat.le_refl _) x

lemma dedupFirst_nodup (l : List String) : (dedupFirst l).Nodup :=
  dedupAux_nodup l.length l (Nat.le_refl _)

lemma dedupFirst_pairwise (l : List String) :
    (dedupFirst l).Pairwise (fun a b => l.indexOf a < l.indexOf b) :=
  dedupAux_pairwise l.length l (Nat.le_refl _)

lemma isSome_map {α β : Type} (o : Option α) (g : α → β) :
    (o.map g).isSome = o.isSome := by
  cases o <;> rfl

lemma mem_parseErrors (logs : String) (e : ParsedError) :
    e ∈ parseErrors logs ↔
      (gscan eslintScanner logs.toList ≠ []
          ∧ e = ⟨"eslint", gscan eslintScanner logs.toList⟩)
      ∨ (gscan buildScanner logs.toList ≠ []
          ∧ e = ⟨"build", gscan buildScanner logs.toList⟩)
      ∨ (gscan depMatchAt logs.toList ≠ []
          ∧ e = ⟨"dependency", dedupFirst (gscan depMatchAt logs.toList)⟩) := by
  show e ∈
      (if gscan eslintScanner logs.toList ≠ [] then
        [({ type := "eslint", matchList := gscan eslintScanner logs.toList } : ParsedError)] else [])
      ++ (if gscan buildScanner logs.toList ≠ [] then
        [({ type := "build", matchList := gscan buildScanner logs.toList } : ParsedError)] else [])
      ++ (if gscan depMatchAt logs.toList ≠ [] then
        [({ type := "dependency", matchList := dedupFirst (gscan depMatchAt logs.toList) } : ParsedError)] else [])
    ↔ _
  simp only [List.mem_append]
  split_ifs with h1 h2 h3 h4 h5 h6 h7 <;> simp_all [or_assoc]

/-- C5: `parseErrors` returns an entry of type `eslint` iff the log matches
`/\[eslint\].*?Line \d+:\d+/i` somewhere, an entry of type `build` iff the
log matches `/Failed to compile/i` somewhere, and an entry of type
`dependency` iff the log contains at least one `Cannot find module '…'`
occurrence; the dependency entry's matches list is the deduplicated capture
list — without duplicates, containing exactly the captured module names, and
ordered by first occurrence in the capture sequence; no entry type other
than these three ever occurs. -/
theorem parseErrors_characterization (logs : String) :
    ((∃ e ∈ parseErrors logs, e.type = "eslint")
        ↔ ∃ i, (eslintMatchLen (logs.toList.drop i)).isSome)
    ∧ ((∃ e ∈ parseErrors logs, e.type = "build")
        ↔ ∃ i, (buildMatchLen (logs.toList.drop i)).isSome)
    ∧ ((∃ e ∈ parseErrors logs, e.type = "dependency")
        ↔ ∃ i, (depMatchAt (logs.toList.drop i)).isSome)
    ∧ (∀ e ∈ parseErrors logs, e.type = "dependency" →
        e.matchList = dedupFirst (gscan depMatchAt logs.toList)
        ∧ e.matchList.Nodup
        ∧ (∀ x, x ∈ e.matchList ↔ x ∈ gscan depMatchAt logs.toList)
        ∧ e.matchList.Pairwise (fun a b =>
            (gscan depMatchAt logs.toList).indexOf a
              < (gscan depMatchAt logs.toList).indexOf b))
    ∧ (∀ e ∈ parseErrors logs, e.type = "eslint" ∨ e.type = "build" ∨ e.type = "dependency") := by
  refine ⟨?_, ?_, ?_, ?_, ?_⟩
  · constructor
    · rintro ⟨e, he, ht⟩
      rcases (mem_parseErrors logs e).mp he with ⟨hne, rfl⟩ | ⟨_, rfl⟩ | ⟨_, rfl⟩
      · rcases (gscan_ne_nil_iff _ rfl _).mp hne with ⟨i, hi⟩
        exact ⟨i, by simpa [eslintScanner, isSome_map] using hi⟩
      · exact absurd ht (by simp)
      · exact absurd ht (by simp)
    · rintro ⟨i, hi⟩
      have hne : gscan eslintScanner logs.toList ≠ [] :=
        (gscan_ne_nil_iff _ rfl _).mpr ⟨i, by simpa [eslintScanner, isSome_map] using hi⟩
      exact ⟨_, (mem_parseErrors logs _).mpr (Or.inl ⟨hne, rfl⟩), rfl⟩
  · constructor
    · rintro ⟨e, he, ht⟩
      rcases (mem_parseErrors logs e).mp he with ⟨_, rfl⟩ | ⟨hne, rfl⟩ | ⟨_, rfl⟩
      · exact absurd ht (by simp)
      · rcases (gscan_ne_nil_iff _ rfl _).mp hne with ⟨i, hi⟩
        exact ⟨i, by simpa [buildScanner, isSome_map] using hi⟩
      · exact absurd ht (by simp)
    · rintro ⟨i, hi⟩
      have hne : gscan buildScanner logs.toList ≠ [] :=
        (gscan_ne_nil_iff _ rfl _).mpr ⟨i, by simpa [buildScanner, isSome_map] using hi⟩
      exact ⟨_, (mem_parseErrors logs _).mpr (Or.inr (Or.inl ⟨hne, rfl⟩)), rfl⟩
  · constructor
    · rintro ⟨e, he, ht⟩
      rcases (mem_parseErrors logs e).mp he with ⟨_, rfl⟩ | ⟨_, rfl⟩ | ⟨hne, rfl⟩
      · exact absurd ht (by simp)
      · exact absurd ht (by simp)
      · exact (gscan_ne_nil_iff _ rfl _).mp hne
    · rintro ⟨i, hi⟩
      have hne : gscan depMatchAt logs.toList ≠ [] :=
        (gscan_ne_nil_iff _ rfl _).mpr ⟨i, hi⟩
      exact ⟨_, (mem_parseErrors logs _).mpr (Or.inr (Or.inr ⟨hne, rfl⟩)), rfl⟩
  · intro e he ht
    rcases (mem_parseErrors logs e).mp he with ⟨_, rfl⟩ | ⟨_, rfl⟩ | ⟨_, rfl⟩
    · exact absurd ht (by simp)
    · exact absurd ht (by simp)
    · exact ⟨rfl, dedupFirst_nodup _, dedupFirst_mem _, dedupFirst_pairwise _⟩
  · intro e he
    rcases (mem_parseErrors logs e).mp he with ⟨_, rfl⟩ | ⟨_, rfl⟩ | ⟨_, rfl⟩
    · exact Or.inl rfl
    · exact Or.inr (Or.inl rfl)
    · exact Or.inr (Or.inr rfl)

/-- C5 witness: the characterization discharged on a concrete log line
containing one dependency error. -/
theorem parseErrors_characterization_witness :
    ∃ e ∈ parseErrors "Cannot find module 'dayjs'", e.type = "dependency" :=
  (parseErrors_characterization "Cannot find module 'dayjs'").2.2.1.mpr
    ⟨0, by decide⟩

/-! ### C2 / C6 / C7: the deploy loop (deploy script lines 427–562)

`deploy(attempt)` is embedded as a function of an environment that records
what each external call would return during a given attempt: whether the
GitHub CLI is installed, the current git branch, the successive
`getLatestRunId` responses, the successive `getRunStatus` responses, the run
logs, and the outcomes of the auto-fix commands.  The status-poll stream of
an attempt is an eventually-constant sequence `polls ++ repeat pollsTail`;
with that representation the unbounded `while (true)` poll loop is
computable, and an attempt whose stream never reaches status `"completed"`
makes the loop run forever, which the embedding reports as result `none`. -/

/-- A `gh run view --json status,conclusion` response. -/
structure RunStatus where
  status : String
  conclusion : String
deriving DecidableEq, Repr

/-- The external-world responses observed during one deployment attempt. -/
structure AttemptEnv where
  ghInstalled : Bool
  branch : String
  runIds : Nat → Option Nat
  polls : List (Option RunStatus)
  pollsTail : Option RunStatus
  logs : String
  eslintFixOk : Bool
  npmInstallOk : String → Bool
  gitDirty : Bool

/-- `const MAX_ATTEMPTS = 5` (deploy script line 156). -/
def MAX_ATTEMPTS : Nat := 5

/-- Whether a `getRunStatus` response breaks the poll loop: a `null`
response makes the loop retry, any other response breaks it exactly when
`status === 'completed'` (lines 520–529). -/
def isCompletedO (o : Option RunStatus) : Bool :=
  match o with
  | some s => s.status == "completed"
  | none => false

/-- The status the `while (true)` poll loop (lines 520–529) breaks on: the
first response with status `"completed"` in the eventually-constant stream
`ps ++ repeat tail`; `none` when there is no such response, i.e. the loop
never exits. -/
def pollFirst (ps : List (Option RunStatus)) (tail : Option RunStatus) : Option RunStatus :=
  match ps.find? isCompletedO with
  | some o => o
  | none => if isCompletedO tail then tail else none

/-- The run id produced by the initial `getLatestRunId` call plus the
up-to-twelve retries of the wait loop (lines 503–515). -/
def firstRunId (rids : Nat → Option Nat) : Option Nat :=
  (List.range 13).findSome? rids

/-- `autoFix(errors)` (lines 388–425): `fixed` becomes true when an eslint
fix or any missing-package install succeeds; the function returns true only
when additionally `git status --porcelain` shows changes to commit. -/
def autoFix (env : AttemptEnv) (errors : List ParsedError) : Bool :=
  (errors.foldl
    (fun acc e =>
      if e.type = "eslint" then (if env.eslintFixOk then true else acc)
      else if e.type = "dependency" then
        e.matchList.foldl (fun a pkg => if env.npmInstallOk pkg then true else a) acc
      else acc)
    false)
  && env.gitDirty

/-- An externally visible effect of `deploy`: a Remote Config PUT
(`syncRemoteConfig`) or entering the workflow trigger/poll phase of an
attempt. -/
inductive Eff where
  | put (template : RCConfig)
  | workflow (attempt : Nat)
deriving DecidableEq, Repr

/-- Result of a `deploy` call: the returned boolean (`none` when the poll
loop of some attempt never exits), the effect trace, and the Remote Config
state after the call. -/
structure DeployOut where
  result : Option Bool
  trace : List Eff
  finalRemote : RCConfig
deriving DecidableEq, Repr

/-- `deploy(attempt)` (deploy script lines 427–562) over the environments
`envs` (one per attempt number), local template `lc` and current remote
template `remote`.  `budget` is recursion fuel: the wrapper `deploy` passes
`MAX_ATTEMPTS + 1 - attempt`, and since the recursive call at line 557 is
only reached when `attempt ≤ MAX_ATTEMPTS` (the guard at line 478 returns
`false` otherwise), the fuel-exhausted branch is unreachable from the
wrapper.  Control flow in source order: `checkGhInstalled`, the branch
check, Remote Config validation and conditional sync, the production
early-return, the attempt guard, the run-id wait loop, the status poll
loop, the conclusion check, log parsing and auto-fix with retry. -/
def deployGo (isProd : Bool) (lc : RCConfig) (envs : Nat → AttemptEnv) :
    Nat → Nat → RCConfig → DeployOut
  | budget, attempt, remote =>
    let env := envs attempt
    if env.ghInstalled = false then ⟨some false, [], remote⟩
    else if env.branch ≠ "main" ∧ env.branch ≠ "master" then ⟨some false, [], remote⟩
    else
      let errs := validateRemoteConfigErrors lc remote
      let doSync : Bool := errs ≠ []
      let remote2 := if doSync then buildTemplateConfig lc else remote
      let pre1 : List Eff := if doSync then [Eff.put (buildTemplateConfig lc)] else []
      if isProd then ⟨some false, pre1, remote2⟩
      else if attempt > MAX_ATTEMPTS then ⟨some false, pre1, remote2⟩
      else
        let pre2 := pre1 ++ [Eff.workflow attempt]
        match firstRunId env.runIds with
        | none => ⟨some false, pre2, remote2⟩
        | some _ =>
            match pollFirst env.polls env.pollsTail with
            | none => ⟨none, pre2, remote2⟩
            | some st =>
                if st.conclusion = "success" then ⟨some true, pre2, remote2⟩
                else
                  let errors := parseErrors env.logs
                  if errors = [] then ⟨some false, pre2, remote2⟩
                  else if autoFix env errors then
                    match budget with
                    | 0 => ⟨some false, pre2, remote2⟩
                    | b + 1 =>
                        let res := deployGo isProd lc envs b (attempt + 1) remote2
                        ⟨res.result, pre2 ++ res.trace, res.finalRemote⟩
                  else ⟨some false, pre2, remote2⟩

/-- `deploy(attempt)`: `deployGo` with the fuel the recursion never
exhausts. -/
def deploy (isProd : Bool) (lc : RCConfig) (envs : Nat → AttemptEnv)
    (attempt : Nat) (remote : RCConfig) : DeployOut :=
  deployGo isProd lc envs (MAX_ATTEMPTS + 1 - attempt) attempt remote

/-- Number of workflow trigger/poll phases entered in a trace. -/
def wfCount (tr : List Eff) : Nat :=
  (tr.filter (fun e => match e with | .workflow _ => true | _ => false)).length

lemma wfCount_nil : wfCount [] = 0 := rfl

lemma wfCount_append (a b : List Eff) : wfCount (a ++ b) = wfCount a + wfCount b := by
  simp [wfCount, List.filter_append]

lemma wfCount_pre1 (c : Prop) [Decidable c] (t : RCConfig) :
    wfCount (if c then [Eff.put t] else []) = 0 := by
  split <;> rfl


lemma wfCount_workflow (n : Nat) : wfCount [Eff.workflow n] = 1 := rfl

lemma wfCount_sync (c : Prop) [Decidable c] (t : RCConfig) :
    wfCount (if c then [] else [Eff.put t]) = 0 := by split <;> rfl

lemma deployGo_wfCount (isProd : Bool) (lc : RCConfig) (envs : Nat → AttemptEnv) :
    ∀ budget attempt remote,
      wfCount (deployGo isProd lc envs budget attempt remote).trace
        ≤ MAX_ATTEMPTS + 1 - attempt := by
  intro budget
  induction budget with
  | zero =>
      intro attempt remote
      rw [deployGo]
      by_cases h1 : (envs attempt).ghInstalled = false
      · simp [h1, wfCount]
      by_cases h2 : (envs attempt).branch ≠ "main" ∧ (envs attempt).branch ≠ "master"
      · simp [h1, h2, wfCount]
      simp only [if_neg h1, if_neg h2]
      by_cases h3 : isProd = true
      · simp [h3, wfCount_pre1, wfCount_sync]
      by_cases h4 : attempt > MAX_ATTEMPTS
      · simp [h3, h4, wfCount_pre1, wfCount_sync]
      simp only [if_neg h3, if_neg h4]
      have hle : 1 ≤ MAX_ATTEMPTS + 1 - attempt := by
        simp only [MAX_ATTEMPTS] at h4 ⊢
        omega
      split
      · simpa [wfCount_append, wfCount_pre1, wfCount_sync, wfCount_workflow] using hle
      split
      · simpa [wfCount_append, wfCount_pre1, wfCount_sync, wfCount_workflow] using hle
      split
      · simpa [wfCount_append, wfCount_pre1, wfCount_sync, wfCount_workflow] using hle
      split
      · simpa [wfCount_append, wfCount_pre1, wfCount_sync, wfCount_workflow] using hle
      split
      · simpa [wfCount_append, wfCount_pre1, wfCount_sync, wfCount_workflow] using hle
      · simpa [wfCount_append, wfCount_pre1, wfCount_sync, wfCount_workflow] using hle
  | succ b ih =>
      intro attempt remote
      rw [deployGo]
      by_cases h1 : (envs attempt).ghInstalled = false
      · simp [h1, wfCount]
      by_cases h2 : (envs attempt).branch ≠ "main" ∧ (envs attempt).branch ≠ "master"
      · simp [h1, h2, wfCount]
      simp only [if_neg h1, if_neg h2]
      by_cases h3 : isProd = true
      · simp [h3, wfCount_pre1, wfCount_sync]
      by_cases h4 : attempt > MAX_ATTEMPTS
      · simp [h3, h4, wfCount_pre1, wfCount_sync]
      simp only [if_neg h3, if_neg h4]
      have hle : 1 ≤ MAX_ATTEMPTS + 1 - attempt := by
        simp only [MAX_ATTEMPTS] at h4 ⊢
        omega
      split
      · simpa [wfCount_append, wfCount_pre1, wfCount_sync, wfCount_workflow] using hle
      split
      · simpa [wfCount_append, wfCount_pre1, wfCount_sync, wfCount_workflow] using hle
      split
      · simpa [wfCount_append, wfCount_pre1, wfCount_sync, wfCount_workflow] using hle
      split
      · simpa [wfCount_append, wfCount_pre1, wfCount_sync, wfCount_workflow] using hle
      split
      · have ihx := ih (attempt + 1)
          (if decide (validateRemoteConfigErrors lc remote ≠ []) = true then
            buildTemplateConfig lc else remote)
        simp only [wfCount_append, wfCount_pre1, wfCount_sync, wfCount_workflow]
        simp only [MAX_ATTEMPTS] at ihx h4 ⊢
        omega
      · simpa [wfCount_append, wfCount_pre1, wfCount_sync, wfCount_workflow] using hle


lemma deployGo_result_isSome (isProd : Bool) (lc : RCConfig) (envs : Nat → AttemptEnv)
    (h : ∀ a, (pollFirst (envs a).polls (envs a).pollsTail).isSome) :
    ∀ budget attempt remote, (deployGo isProd lc envs budget attempt remote).result.isSome := by
  intro budget
  induction budget with
  | zero =>
      intro attempt remote
      rw [deployGo]
      by_cases h1 : (envs attempt).ghInstalled = false
      · simp [h1]
      by_cases h2 : (envs attempt).branch ≠ "main" ∧ (envs attempt).branch ≠ "master"
      · simp [h1, h2]
      simp only [if_neg h1, if_neg h2]
      by_cases h3 : isProd = true
      · simp [h3]
      by_cases h4 : attempt > MAX_ATTEMPTS
      · simp [h3, h4]
      simp only [if_neg h3, if_neg h4]
      split
      · simp
      split
      · rename_i heq
        exact absurd (h attempt) (by simp [heq])
      split
      · simp
      split
      · simp
      split
      · simp
      · simp
  | succ b ih =>
      intro attempt remote
      rw [deployGo]
      by_cases h1 : (envs attempt).ghInstalled = false
      · simp [h1]
      by_cases h2 : (envs attempt).branch ≠ "main" ∧ (envs attempt).branch ≠ "master"
      · simp [h1, h2]
      simp only [if_neg h1, if_neg h2]
      by_cases h3 : isProd = true
      · simp [h3]
      by_cases h4 : attempt > MAX_ATTEMPTS
      · simp [h3, h4]
      simp only [if_neg h3, if_neg h4]
      split
      · simp
      split
      · rename_i heq
        exact absurd (h attempt) (by simp [heq])
      split
      · simp
      split
      · simp
      split
      · simpa using ih (attempt + 1)
          (if decide (validateRemoteConfigErrors lc remote ≠ []) = true then
            buildTemplateConfig lc else remote)
      · simp

lemma deployGo_guard (isProd : Bool) (lc : RCConfig) (envs : Nat → AttemptEnv)
    (budget attempt : Nat) (remote : RCConfig) (h4 : attempt > MAX_ATTEMPTS) :
    (deployGo isProd lc envs budget attempt remote).result = some false
    ∧ wfCount (deployGo isProd lc envs budget attempt remote).trace = 0 := by
  rw [deployGo]
  by_cases h1 : (envs attempt).ghInstalled = false
  · simp [h1, wfCount]
  by_cases h2 : (envs attempt).branch ≠ "main" ∧ (envs attempt).branch ≠ "master"
  · simp [h1, h2, wfCount]
  simp only [if_neg h1, if_neg h2]
  by_cases h3 : isProd = true
  · simp [h3, wfCount_pre1, wfCount_sync]
  · simp [if_neg h3, if_pos h4, wfCount_pre1, wfCount_sync]


/-- The empty Remote Config template. -/
def emptyRC : RCConfig := { parameters := [], conditions := [], conditionalValues := [] }

/-- An attempt environment whose status endpoint forever answers
`in_progress`: no response in its stream ever reaches status
`"completed"`. -/
def stuckEnv : AttemptEnv :=
  { ghInstalled := true, branch := "main", runIds := fun _ => some 1,
    polls := [], pollsTail := some { status := "in_progress", conclusion := "" },
    logs := "", eslintFixOk := false, npmInstallOk := fun _ => false, gitDirty := false }

/-- C2 counterexample: the deploy routine does not terminate for every
input.  Against an environment whose status endpoint never reports
`"completed"`, the `while (true)` poll loop of the very first attempt never
breaks (`pollFirst = none`), and the embedded `deploy` reports divergence
(`result = none`) — even though the attempt counter is bounded. -/
theorem deploy_diverges_on_stuck_poll :
    pollFirst stuckEnv.polls stuckEnv.pollsTail = none
    ∧ (deploy false emptyRC (fun _ => stuckEnv) 1 emptyRC).result = none :=
  ⟨rfl, rfl⟩

/-- C2 amended: provided every attempt's status-poll stream eventually
reports `"completed"`, the deploy routine terminates; it enters the
workflow trigger/poll phase at most `MAX_ATTEMPTS + 1 - attempt` times
(from the initial `deploy()` call, `attempt = 1`, that is at most
`MAX_ATTEMPTS = 5` deployment attempts, since each retry calls
`deploy(attempt + 1)`); and any call with `attempt > MAX_ATTEMPTS` returns
`false` without triggering or polling a workflow run.  Only the
status-poll loop can make `deploy` run forever. -/
theorem deploy_attempt_budget (isProd : Bool) (lc : RCConfig) (envs : Nat → AttemptEnv)
    (attempt : Nat) (remote : RCConfig)
    (h : ∀ a, (pollFirst (envs a).polls (envs a).pollsTail).isSome) :
    (deploy isProd lc envs attempt remote).result.isSome
    ∧ wfCount (deploy isProd lc envs attempt remote).trace ≤ MAX_ATTEMPTS + 1 - attempt
    ∧ (attempt > MAX_ATTEMPTS →
        (deploy isProd lc envs attempt remote).result = some false
        ∧ wfCount (deploy isProd lc envs attempt remote).trace = 0) :=
  ⟨deployGo_result_isSome isProd lc envs h _ attempt remote,
   deployGo_wfCount isProd lc envs _ attempt remote,
   fun h4 => deployGo_guard isProd lc envs _ attempt remote h4⟩

/-- An attempt environment whose workflow run completes successfully on
the third poll. -/
def okEnv : AttemptEnv :=
  { ghInstalled := true, branch := "main", runIds := fun _ => some 7,
    polls := [none, some { status := "queued", conclusion := "" },
      some { status := "completed", conclusion := "success" }],
    pollsTail := none,
    logs := "", eslintFixOk := false, npmInstallOk := fun _ => false, gitDirty := false }

/-- C2 amended witness: the bound evaluated at a concrete succeeding
environment, with the eventual-completion hypothesis discharged by
computation. -/
theorem deploy_attempt_budget_witness :
    (deploy false emptyRC (fun _ => okEnv) 1 emptyRC).result.isSome
    ∧ wfCount (deploy false emptyRC (fun _ => okEnv) 1 emptyRC).trace ≤ MAX_ATTEMPTS + 1 - 1
    ∧ (1 > MAX_ATTEMPTS →
        (deploy false emptyRC (fun _ => okEnv) 1 emptyRC).result = some false
        ∧ wfCount (deploy false emptyRC (fun _ => okEnv) 1 emptyRC).trace = 0) :=
  deploy_attempt_budget false emptyRC (fun _ => okEnv) 1 emptyRC
    (fun _ => show (pollFirst okEnv.polls okEnv.pollsTail).isSome = true by decide)

lemma deployGo_no_put (isProd : Bool) (lc : RCConfig) (envs : Nat → AttemptEnv) :
    ∀ budget attempt remote, validateRemoteConfigErrors lc remote = [] →
      (∀ t, Eff.put t ∉ (deployGo isProd lc envs budget attempt remote).trace)
      ∧ (deployGo isProd lc envs budget attempt remote).finalRemote = remote := by
  intro budget
  induction budget with
  | zero =>
      intro attempt remote herr
      rw [deployGo]
      by_cases h1 : (envs attempt).ghInstalled = false
      · simp [h1]
      by_cases h2 : (envs attempt).branch ≠ "main" ∧ (envs attempt).branch ≠ "master"
      · simp [h1, h2]
      simp only [if_neg h1, if_neg h2]
      by_cases h3 : isProd = true
      · simp [h3, herr]
      by_cases h4 : attempt > MAX_ATTEMPTS
      · simp [h3, h4, herr]
      simp only [if_neg h3, if_neg h4]
      split
      · simp [herr]
      split
      · simp [herr]
      split
      · simp [herr]
      split
      · simp [herr]
      split
      · simp [herr]
      · simp [herr]
  | succ b ih =>
      intro attempt remote herr
      rw [deployGo]
      by_cases h1 : (envs attempt).ghInstalled = false
      · simp [h1]
      by_cases h2 : (envs attempt).branch ≠ "main" ∧ (envs attempt).branch ≠ "master"
      · simp [h1, h2]
      simp only [if_neg h1, if_neg h2]
      by_cases h3 : isProd = true
      · simp [h3, herr]
      by_cases h4 : attempt > MAX_ATTEMPTS
      · simp [h3, h4, herr]
      simp only [if_neg h3, if_neg h4]
      split
      · simp [herr]
      split
      · simp [herr]
      split
      · simp [herr]
      split
      · simp [herr]
      split
      · have ihx := ih (attempt + 1) remote herr
        simp only [herr] at *
        simp [herr]
        constructor
        · intro t
          simpa using (ihx.1 t)
        · simpa using ihx.2
      · simp [herr]

lemma deployGo_puts (isProd : Bool) (lc : RCConfig) (envs : Nat → AttemptEnv)
    (budget attempt : Nat) (remote : RCConfig)
    (herr : validateRemoteConfigErrors lc remote ≠ [])
    (hgh : (envs attempt).ghInstalled = true)
    (hbr : (envs attempt).branch = "main" ∨ (envs attempt).branch = "master") :
    Eff.put (buildTemplateConfig lc) ∈ (deployGo isProd lc envs budget attempt remote).trace := by
  rw [deployGo]
  have h1 : ¬(envs attempt).ghInstalled = false := by simp [hgh]
  have h2 : ¬((envs attempt).branch ≠ "main" ∧ (envs attempt).branch ≠ "master") := by
    rcases hbr with hb | hb <;> simp [hb]
  simp only [if_neg h1, if_neg h2]
  by_cases h3 : isProd = true
  · simp [h3, herr]
  by_cases h4 : attempt > MAX_ATTEMPTS
  · simp [h3, h4, herr]
  simp only [if_neg h3, if_neg h4]
  split
  · simp [herr]
  split
  · simp [herr]
  split
  · simp [herr]
  split
  · simp [herr]
  split
  · split
    · simp [herr]
    · simp [herr]
  · simp [herr]


lemma alookup_nil {α : Type} (k : String) : alookup ([] : List (String × α)) k = none := rfl

lemma alookup_cons_of_pos {α : Type} (a : String × α) (l : List (String × α)) (k : String)
    (h : (a.1 == k) = true) : alookup (a :: l) k = some a.2 := by
  rw [alookup, List.find?_cons_of_pos (p := fun q => q.1 == k) l h]
  rfl

lemma alookup_cons_of_neg {α : Type} (a : String × α) (l : List (String × α)) (k : String)
    (h : ¬(a.1 == k) = true) : alookup (a :: l) k = alookup l k := by
  rw [alookup, alookup, List.find?_cons_of_neg (p := fun q => q.1 == k) l h]

lemma alookup_map_overwrite_ne {α : Type} (k : String) (v : α) (k' : String) (hne : k' ≠ k) :
    ∀ m : List (String × α),
      alookup (m.map (fun p => if p.1 == k then (k, v) else p)) k' = alookup m k' := by
  intro m
  induction m with
  | nil => rfl
  | cons a tl ih =>
      rw [List.map_cons]
      by_cases ha : (a.1 == k) = true
      · have hak : a.1 = k := by simpa using ha
        rw [if_pos ha, alookup_cons_of_neg _ _ _ (by simpa using Ne.symm hne),
          alookup_cons_of_neg _ _ _ (by simp [hak]; exact Ne.symm hne)]
        exact ih
      · rw [if_neg ha]
        by_cases ha' : (a.1 == k') = true
        · rw [alookup_cons_of_pos _ _ _ ha', alookup_cons_of_pos _ _ _ ha']
        · rw [alookup_cons_of_neg _ _ _ ha', alookup_cons_of_neg _ _ _ ha']
          exact ih

lemma alookup_map_overwrite_self {α : Type} (k : String) (v : α) :
    ∀ m : List (String × α), m.any (fun p => p.1 == k) = true →
      alookup (m.map (fun p => if p.1 == k then (k, v) else p)) k = some v := by
  intro m
  induction m with
  | nil => intro h; simp at h
  | cons a tl ih =>
      intro hany
      rw [List.map_cons]
      by_cases ha : (a.1 == k) = true
      · rw [if_pos ha, alookup_cons_of_pos _ _ _ (by simp)]
      · rw [if_neg ha, alookup_cons_of_neg _ _ _ ha]
        refine ih ?_
        rw [List.any_cons] at hany
        cases han : tl.any (fun p => p.1 == k)
        · rw [han] at hany
          simp [ha] at hany
        · rfl

lemma alookup_append_single_ne {α : Type} (k : String) (v : α) (k' : String) (hne : k' ≠ k) :
    ∀ m : List (String × α), alookup (m ++ [(k, v)]) k' = alookup m k' := by
  intro m
  induction m with
  | nil =>
      rw [List.nil_append, alookup_nil, alookup_cons_of_neg _ _ _ (by simpa using Ne.symm hne)]
      rfl
  | cons a tl ih =>
      rw [List.cons_append]
      by_cases ha : (a.1 == k') = true
      · rw [alookup_cons_of_pos _ _ _ ha, alookup_cons_of_pos _ _ _ ha]
      · rw [alookup_cons_of_neg _ _ _ ha, alookup_cons_of_neg _ _ _ ha]
        exact ih

lemma alookup_append_single_self {α : Type} (k : String) (v : α) :
    ∀ m : List (String × α), m.any (fun p => p.1 == k) = false →
      alookup (m ++ [(k, v)]) k = some v := by
  intro m
  induction m with
  | nil => intro _; rw [List.nil_append, alookup_cons_of_pos _ _ _ (by simp)]
  | cons a tl ih =>
      intro hany
      rw [List.any_cons] at hany
      have ha : ¬(a.1 == k) = true := by
        intro hc
        rw [hc] at hany
        simp at hany
      rw [List.cons_append, alookup_cons_of_neg _ _ _ ha]
      refine ih ?_
      cases han : tl.any (fun p => p.1 == k)
      · rfl
      · rw [han] at hany
        simp at hany

lemma alookup_setKey_self {α : Type} (m : List (String × α)) (k : String) (v : α) :
    alookup (setKey m k v) k = some v := by
  rw [setKey]
  by_cases hany : m.any (fun p => p.1 == k) = true
  · rw [if_pos hany]
    exact alookup_map_overwrite_self k v m hany
  · rw [if_neg hany]
    exact alookup_append_single_self k v m (Bool.eq_false_iff.mpr hany)

lemma alookup_setKey_ne {α : Type} (m : List (String × α)) (k : String) (v : α)
    (k' : String) (hne : k' ≠ k) : alookup (setKey m k v) k' = alookup m k' := by
  rw [setKey]
  by_cases hany : m.any (fun p => p.1 == k) = true
  · rw [if_pos hany]
    exact alookup_map_overwrite_ne k v k' hne m
  · rw [if_neg hany]
    exact alookup_append_single_ne k v k' hne m

lemma foldl_mergeStep_notmem :
    ∀ (entries : List (String × List (String × RCValue)))
      (params : List (String × RCParam)) (pk : String),
      pk ∉ entries.map Prod.fst →
      alookup (entries.foldl mergeStep params) pk = alookup params pk := by
  intro entries
  induction entries with
  | nil => intro params pk _; rfl
  | cons e rest ih =>
      intro params pk hpk
      rw [List.foldl_cons]
      have hne : pk ≠ e.1 := fun hc => hpk (by simp [hc])
      rw [ih (mergeStep params e) pk (fun hc => hpk (by simp [hc]))]
      rw [mergeStep]
      exact alookup_setKey_ne _ _ _ _ hne

lemma foldl_mergeStep_lookup :
    ∀ (entries : List (String × List (String × RCValue)))
      (params : List (String × RCParam)) (pk : String) (conds : List (String × RCValue)),
      (entries.map Prod.fst).Nodup → alookup entries pk = some conds →
      ∃ p, alookup (entries.foldl mergeStep params) pk = some p
        ∧ p.conditionalValues = conds
        ∧ (alookup params pk = none → p.defaultValue = some { value := some "control" }) := by
  intro entries
  induction entries with
  | nil => intro params pk conds _ h; rw [alookup_nil] at h; exact absurd h (by simp)
  | cons e rest ih =>
      intro params pk conds hnd hl
      rw [List.foldl_cons]
      by_cases hpk : (e.1 == pk) = true
      · have hpe : pk = e.1 := by
          have h1 : e.1 = pk := by simpa using hpk
          exact h1.symm
        have hconds : conds = e.2 := by
          rw [alookup_cons_of_pos _ _ _ hpk] at hl
          exact (Option.some.injEq _ _ ▸ hl).symm
        have hrest : pk ∉ rest.map Prod.fst := by
          rw [hpe]
          exact (List.nodup_cons.mp hnd).1
        rw [foldl_mergeStep_notmem rest _ pk hrest, mergeStep, hpe]
        cases halo : alookup params e.1 with
        | none =>
            refine ⟨_, alookup_setKey_self _ _ _, ?_, ?_⟩
            · simp [halo, hconds]
            · intro _
              simp [halo]
        | some p0 =>
            refine ⟨_, alookup_setKey_self _ _ _, ?_, ?_⟩
            · simp [halo, hconds]
            · intro hc
              exact absurd hc (by simp)
      · have hne : pk ≠ e.1 := fun hc => hpk (by simp [hc])
        rw [alookup_cons_of_neg _ _ _ hpk] at hl
        rcases ih (mergeStep params e) pk conds (List.nodup_cons.mp hnd).2 hl
          with ⟨p, hp1, hp2, hp3⟩
        refine ⟨p, hp1, hp2, ?_⟩
        intro hnone
        refine hp3 ?_
        rw [mergeStep, alookup_setKey_ne _ _ _ _ hne]
        exact hnone


/-- C6: `deploy` pushes corrections only when the diff finds them.  If
`validateRemoteConfig` returns no errors, no Remote Config PUT ever
happens and the live Remote Config is left unchanged; if it returns
errors (and the attempt gets past the CLI and branch checks that precede
validation), `syncRemoteConfig` publishes the template built from the
local file — whose conditions are the local conditions, and in which each
local `conditionalValues` entry is merged into its parameter, a missing
parameter being created with defaultValue `"control"`. -/
theorem deploy_sync_frame (isProd : Bool) (lc : RCConfig) (envs : Nat → AttemptEnv)
    (attempt : Nat) (remote : RCConfig) :
    (validateRemoteConfigErrors lc remote = [] →
        (∀ t, Eff.put t ∉ (deploy isProd lc envs attempt remote).trace)
        ∧ (deploy isProd lc envs attempt remote).finalRemote = remote)
    ∧ (validateRemoteConfigErrors lc remote ≠ [] →
        (envs attempt).ghInstalled = true →
        ((envs attempt).branch = "main" ∨ (envs attempt).branch = "master") →
        Eff.put (buildTemplateConfig lc) ∈ (deploy isProd lc envs attempt remote).trace)
    ∧ (buildTemplateConfig lc).conditions = lc.conditions
    ∧ ((lc.conditionalValues.map Prod.fst).Nodup →
        ∀ pk conds, alookup lc.conditionalValues pk = some conds →
          ∃ p, alookup (buildTemplateConfig lc).parameters pk = some p
            ∧ p.conditionalValues = conds
            ∧ (alookup lc.parameters pk = none →
                p.defaultValue = some { value := some "control" })) :=
  ⟨fun herr => deployGo_no_put isProd lc envs _ attempt remote herr,
   fun herr hgh hbr => deployGo_puts isProd lc envs _ attempt remote herr hgh hbr,
   rfl,
   fun hnd pk conds hl =>
     foldl_mergeStep_lookup lc.conditionalValues lc.parameters pk conds hnd hl⟩

/-- A local template whose parameter is absent from the empty remote
config, forcing a sync. -/
def lcSync : RCConfig :=
  { parameters := [("flag", { defaultValue := some { value := some "on" }, conditionalValues := [] })],
    conditions := [],
    conditionalValues := [("flag", [("beta", { value := some "b" })])] }

/-- C6 witness: a local template that fails validation against an empty
remote config makes `deploy` publish the merged template. -/
theorem deploy_sync_frame_witness :
    Eff.put (buildTemplateConfig lcSync)
      ∈ (deploy false lcSync (fun _ => okEnv) 1 emptyRC).trace :=
  (deploy_sync_frame false lcSync (fun _ => okEnv) 1 emptyRC).2.1
    (by decide) (by decide) (by decide)

/-- The (zero-based) poll iteration at which the `while (true)` loop of
lines 520–529 breaks: the first response in the stream with status
`"completed"`; `none` when the loop never exits within the listed
responses. -/
def pollExitIdx : List (Option RunStatus) → Option Nat
  | [] => none
  | o :: rest => if isCompletedO o then some 0 else (pollExitIdx rest).map (fun i => i + 1)

lemma pollFirst_via_idx (ps : List (Option RunStatus)) (tail : Option RunStatus) :
    pollFirst ps tail =
      match pollExitIdx ps with
      | some i => (ps.get? i).join
      | none => if isCompletedO tail then tail else none := by
  induction ps with
  | nil => rfl
  | cons o rest ih =>
      rw [pollFirst, pollExitIdx]
      by_cases hc : isCompletedO o = true
      · rw [List.find?_cons_of_pos _ hc, if_pos hc]
        rfl
      · rw [List.find?_cons_of_neg _ hc, if_neg hc]
        rw [pollFirst] at ih
        rw [ih]
        cases pollExitIdx rest <;> rfl

lemma pollExitIdx_first (ps : List (Option RunStatus)) :
    ∀ i, pollExitIdx ps = some i →
      (∃ o, ps.get? i = some o ∧ isCompletedO o = true)
      ∧ (∀ j, j < i → ∀ o, ps.get? j = some o → isCompletedO o = false) := by
  induction ps with
  | nil => intro i h; exact absurd h (by simp [pollExitIdx])
  | cons o rest ih =>
      intro i h
      rw [pollExitIdx] at h
      by_cases hc : isCompletedO o = true
      · rw [if_pos hc] at h
        have hi : i = 0 := by simpa using h.symm
        subst hi
        exact ⟨⟨o, rfl, hc⟩, fun j hj => absurd hj (Nat.not_lt_zero _)⟩
      · rw [if_neg hc] at h
        cases hrest : pollExitIdx rest with
        | none => rw [hrest] at h; simp at h
        | some i0 =>
            rw [hrest] at h
            have hi : i = i0 + 1 := by simpa using h.symm
            subst hi
            rcases ih i0 hrest with ⟨⟨o0, ho0, hco0⟩, hbefore⟩
            refine ⟨⟨o0, by simpa using ho0, hco0⟩, ?_⟩
            intro j hj o' ho'
            cases j with
            | zero =>
                have : o' = o := by simpa using ho'.symm
                subst this
                exact Bool.eq_false_iff.mpr hc
            | succ j0 =>
                exact hbefore j0 (Nat.lt_of_succ_lt_succ hj) o' (by simpa using ho')

lemma pollExitIdx_status_inv :
    ∀ ps ps' : List (Option RunStatus),
      ps.map (Option.map RunStatus.status) = ps'.map (Option.map RunStatus.status) →
      pollExitIdx ps = pollExitIdx ps' := by
  intro ps
  induction ps with
  | nil =>
      intro ps' h
      cases ps' with
      | nil => rfl
      | cons a t => simp at h
  | cons a t ih =>
      intro ps' h
      cases ps' with
      | nil => simp at h
      | cons a' t' =>
          rw [List.map_cons, List.map_cons] at h
          injection h with h1 h2
          have hco : isCompletedO a = isCompletedO a' := by
            cases a with
            | none =>
                cases a' with
                | none => rfl
                | some s' => simp at h1
            | some s =>
                cases a' with
                | none => simp at h1
                | some s' =>
                    have hs : s.status = s'.status := by simpa using h1
                    simp [isCompletedO, hs]
          rw [pollExitIdx, pollExitIdx, hco, ih t' h2]


lemma pollFirst_completed (ps : List (Option RunStatus)) (tail : Option RunStatus) :
    ∀ s, pollFirst ps tail = some s → s.status = "completed" := by
  intro s h
  rw [pollFirst] at h
  cases hf : ps.find? isCompletedO with
  | some o =>
      rw [hf] at h
      subst h
      have := List.find?_some hf
      simpa [isCompletedO] using this
  | none =>
      rw [hf] at h
      by_cases hc : isCompletedO tail = true
      · rw [if_pos hc] at h
        subst h
        simpa [isCompletedO] using hc
      · rw [if_neg hc] at h
        exact absurd h (by simp)

lemma deploy_completed_behavior (lc : RCConfig) (envs : Nat → AttemptEnv)
    (attempt : Nat) (remote : RCConfig) (st : RunStatus) (rid : Nat)
    (hgh : (envs attempt).ghInstalled = true)
    (hbr : (envs attempt).branch = "main" ∨ (envs attempt).branch = "master")
    (hat : attempt ≤ MAX_ATTEMPTS)
    (hrid : firstRunId (envs attempt).runIds = some rid)
    (hpoll : pollFirst (envs attempt).polls (envs attempt).pollsTail = some st) :
    (st.conclusion = "success" →
      (deploy false lc envs attempt remote).result = some true)
    ∧ (st.conclusion ≠ "success" →
        ((deploy false lc envs attempt remote).result = some false
          ∨ (deploy false lc envs attempt remote).result
              = (deploy false lc envs (attempt + 1)
                  (if validateRemoteConfigErrors lc remote ≠ [] then
                    buildTemplateConfig lc else remote)).result)
        ∧ ((deploy false lc envs attempt remote).result = some true →
            (deploy false lc envs (attempt + 1)
                (if validateRemoteConfigErrors lc remote ≠ [] then
                  buildTemplateConfig lc else remote)).result = some true)) := by
  have h1 : ¬(envs attempt).ghInstalled = false := by simp [hgh]
  have h2 : ¬((envs attempt).branch ≠ "main" ∧ (envs attempt).branch ≠ "master") := by
    rcases hbr with hb | hb <;> simp [hb]
  have h4 : ¬attempt > MAX_ATTEMPTS := by omega
  have hb : MAX_ATTEMPTS + 1 - attempt = (MAX_ATTEMPTS - attempt) + 1 := by
    simp only [MAX_ATTEMPTS] at hat ⊢
    omega
  have hb2 : MAX_ATTEMPTS + 1 - (attempt + 1) = MAX_ATTEMPTS - attempt := by
    simp only [MAX_ATTEMPTS]
    omega
  rw [deploy, deploy, hb, hb2, deployGo]
  simp only [if_neg h1, if_neg h2, Bool.false_eq_true, if_false, if_neg h4, hrid, hpoll]
  constructor
  · intro hcon
    simp [hcon]
  · intro hcon
    rw [if_neg hcon]
    by_cases herrs : parseErrors (envs attempt).logs = []
    · rw [if_pos herrs]
      exact ⟨Or.inl rfl, fun hc => absurd hc (by simp)⟩
    · rw [if_neg herrs]
      by_cases hfix : autoFix (envs attempt) (parseErrors (envs attempt).logs) = true
      · rw [if_pos hfix]
        constructor
        · refine Or.inr ?_
          simp
        · intro ht
          simpa using ht
      · rw [if_neg hfix]
        exact ⟨Or.inl rfl, fun hc => absurd hc (by simp)⟩


/-- C7: the deploy routine polls the run status in a loop that (i) only
ever hands a status to the code after it with `status = "completed"`,
(ii) breaks at the first completed response — every earlier response is
non-completed — and whose break point depends only on the statuses of the
responses, never on their conclusions; and (iii) once the run completes,
returns `true` if the conclusion is `"success"`, while on any other
conclusion it either returns `false` or retries, and returns `true` only
if the retry does. -/
theorem deploy_poll_conclusion (ps ps' : List (Option RunStatus)) (tail : Option RunStatus)
    (lc : RCConfig) (envs : Nat → AttemptEnv) (attempt : Nat) (remote : RCConfig)
    (st : RunStatus) (rid : Nat)
    (hgh : (envs attempt).ghInstalled = true)
    (hbr : (envs attempt).branch = "main" ∨ (envs attempt).branch = "master")
    (hat : attempt ≤ MAX_ATTEMPTS)
    (hrid : firstRunId (envs attempt).runIds = some rid)
    (hpoll : pollFirst (envs attempt).polls (envs attempt).pollsTail = some st) :
    (∀ s, pollFirst ps tail = some s → s.status = "completed")
    ∧ (∀ i, pollExitIdx ps = some i →
        (∃ o, ps.get? i = some o ∧ isCompletedO o = true)
        ∧ (∀ j, j < i → ∀ o, ps.get? j = some o → isCompletedO o = false))
    ∧ (ps.map (Option.map RunStatus.status) = ps'.map (Option.map RunStatus.status) →
        pollExitIdx ps = pollExitIdx ps')
    ∧ ((st.conclusion = "success" →
          (deploy false lc envs attempt remote).result = some true)
        ∧ (st.conclusion ≠ "success" →
            ((deploy false lc envs attempt remote).result = some false
              ∨ (deploy false lc envs attempt remote).result
                  = (deploy false lc envs (attempt + 1)
                      (if validateRemoteConfigErrors lc remote ≠ [] then
                        buildTemplateConfig lc else remote)).result)
            ∧ ((deploy false lc envs attempt remote).result = some true →
                (deploy false lc envs (attempt + 1)
                    (if validateRemoteConfigErrors lc remote ≠ [] then
                      buildTemplateConfig lc else remote)).result = some true))) :=
  ⟨pollFirst_completed ps tail,
   pollExitIdx_first ps,
   pollExitIdx_status_inv ps ps',
   deploy_completed_behavior lc envs attempt remote st rid hgh hbr hat hrid hpoll⟩

/-- C7 witness: the conclusion behavior evaluated on a concrete
environment whose run completes with conclusion `"success"`. -/
theorem deploy_poll_conclusion_witness :
    (deploy false emptyRC (fun _ => okEnv) 1 emptyRC).result = some true :=
  (deploy_poll_conclusion [] [] none emptyRC (fun _ => okEnv) 1 emptyRC
      { status := "completed", conclusion := "success" } 7
      (by decide) (Or.inl (by decide)) (by decide) (by decide) (by decide)).2.2.2.1 rfl

/-! ### C4: the feature-flag hook `useFeatureFlag`
(src/framework/hooks/useFeatureFlag.js)

The value the hook's effect resolves (`setFlagValue`) is embedded as a pure
function of an environment describing the browser state and the Remote
Config fetch outcome. -/

/-- The browser/App state visible to one `useFeatureFlag` invocation. -/
structure HookEnv where
  hasWindow : Bool
  hostname : String
  localStorage : List (String × String)
  testOverride : Option (List (String × String))
  cachedFlags : Option (List (String × String))
  fetchedFlags : List (String × String)
  fetchThrows : Bool

/-- `getTestOverride()` (useFeatureFlag.js lines 4–9):
`window.__FLAG_TEST_MODE__`, or null without a window. -/
def getTestOverride (env : HookEnv) : Option (List (String × String)) :=
  if env.hasWindow then env.testOverride else none

/-- `String.prototype.includes` over character lists. -/
def listIncludes (pat : List Char) : List Char → Bool
  | [] => pat.isEmpty
  | s@(_ :: tl) => pat.isPrefixOf s || listIncludes pat tl

/-- `s.includes(pat)`. -/
def strIncludes (s pat : String) : Bool :=
  listIncludes pat.toList s.toList

/-- `isStaging()` (lines 11–14): the window hostname contains
`"staging"`. -/
def isStaging (env : HookEnv) : Bool :=
  env.hasWindow && strIncludes env.hostname "staging"

/-- `getBetaFromStorage()` (lines 16–25): the first localStorage key
starting with `beta_enabled_` decides, by whether its value is the string
`"true"`. -/
def getBetaFromStorage (env : HookEnv) : Bool :=
  if env.hasWindow = false then false
  else
    match env.localStorage.find? (fun kv => kv.1.startsWith "beta_enabled_") with
    | some kv => kv.2 == "true"
    | none => false

/-- `x || null` on a possibly-undefined string: a falsy lookup result
(undefined or the empty string) resolves to null. -/
def jsOrNull (o : Option String) : Option String :=
  match o with
  | some s => if s = "" then none else some s
  | none => none

/-- The flag value `loadFlag` resolves (useFeatureFlag.js lines 52–101), in
source order: the two `navigation_banner` special cases, then the test
override, then the window-cached flags or a fresh fetch (whose rejection
the `catch` turns into null). -/
def resolveFlag (env : HookEnv) (flagKey : String) : Option String :=
  if isStaging env ∧ flagKey = "navigation_banner" then some "beta"
  else if flagKey = "navigation_banner" ∧ getBetaFromStorage env then some "beta"
  else
    match getTestOverride env with
    | some ov => jsOrNull (alookup ov flagKey)
    | none =>
        if env.fetchThrows ∧ env.cachedFlags = none then none
        else jsOrNull (alookup (env.cachedFlags.getD env.fetchedFlags) flagKey)

/-- What the spec sentence claims the hook does: pure pass-through — the
test override if present, otherwise the (cached or freshly fetched)
delivered flags, with no flag-name, hostname or localStorage
special-casing. -/
def resolveSpec (env : HookEnv) (flagKey : String) : Option String :=
  match getTestOverride env with
  | some ov => jsOrNull (alookup ov flagKey)
  | none =>
      if env.fetchThrows ∧ env.cachedFlags = none then none
      else jsOrNull (alookup (env.cachedFlags.getD env.fetchedFlags) flagKey)

/-- A staging-hostname environment where Remote Config delivers
`"control"` for `navigation_banner`. -/
def stagingEnv : HookEnv :=
  { hasWindow := true, hostname := "argbase-staging.web.app", localStorage := [],
    testOverride := none, cachedFlags := none,
    fetchedFlags := [("navigation_banner", "control")], fetchThrows := false }

/-- C4 counterexample: `useFeatureFlag` is not direct pass-through glue.
On a staging hostname it resolves `navigation_banner` to `"beta"` even
though no test override is set and the fetch delivers `"control"` for that
key — a hook-local special case on the flag name and the window
hostname. -/
theorem useFeatureFlag_not_passthrough :
    resolveFlag stagingEnv "navigation_banner" = some "beta"
    ∧ alookup stagingEnv.fetchedFlags "navigation_banner" = some "control"
    ∧ stagingEnv.testOverride = none
    ∧ resolveFlag stagingEnv "navigation_banner" ≠ some "control" := by
  decide

/-- C4 amended: except for the flag key `navigation_banner` when the
hostname contains `"staging"` or a `beta_enabled_*` localStorage entry is
`"true"` (which resolve to `"beta"` regardless of the fetch), the hook is
pass-through: it resolves the test override's value for the key if an
override object is present, and otherwise the value the Remote Config
fetch (or its window cache) delivered for the key, falsy values resolving
to null and a fetch rejection resolving to null. -/
theorem useFeatureFlag_passthrough (env : HookEnv) (flagKey : String)
    (h : ¬(flagKey = "navigation_banner"
        ∧ (isStaging env = true ∨ getBetaFromStorage env = true))) :
    resolveFlag env flagKey = resolveSpec env flagKey := by
  rw [resolveFlag, resolveSpec]
  by_cases hk : flagKey = "navigation_banner"
  · have hs : ¬isStaging env = true := fun hs => h ⟨hk, Or.inl hs⟩
    have hb : ¬getBetaFromStorage env = true := fun hb => h ⟨hk, Or.inr hb⟩
    rw [if_neg (fun hc => hs hc.1), if_neg (fun hc => hb hc.2)]
  · rw [if_neg (fun hc => hk hc.2), if_neg (fun hc => hk hc.1)]

/-- C4 amended witness: a non-special flag key on the staging host is
resolved as pass-through. -/
theorem useFeatureFlag_passthrough_witness :
    resolveFlag stagingEnv "checkout_flow" = resolveSpec stagingEnv "checkout_flow" :=
  useFeatureFlag_passthrough stagingEnv "checkout_flow" (by decide)

/-! ### C8: `useAuth` (src/unnamed/part_000 lines 13–19) -/

/-- The value `AuthProvider` supplies to the context (part_000 lines
50–57); the action fields (`login`, `signup`, `loginWithGoogle`,
`logout`) are handlers whose type is abstract here. -/
structure AuthValue (Action : Type) where
  user : Option String
  loading : Bool
  login : Action
  signup : Action
  loginWithGoogle : Action
  logout : Action

/-- `useAuth()` (part_000 lines 13–19): read the context; a missing (null)
context throws, any provider-supplied value is returned as-is. -/
def useAuth {Action : Type} (context : Option (AuthValue Action)) :
    Except String (AuthValue Action) :=
  match context with
  | none => Except.error "useAuth must be used within an AuthProvider"
  | some v => Except.ok v

/-- C8: `useAuth` throws an Error with message
"useAuth must be used within an AuthProvider" exactly when the auth
context is absent (null); otherwise it returns the context value — the
`AuthValue` record with its `user`, `loading`, `login`, `signup`,
`loginWithGoogle` and `logout` fields — and hence never returns null or
undefined. -/
theorem useAuth_characterization (Action : Type) (ctx : Option (AuthValue Action)) :
    ((∃ e, useAuth ctx = Except.error e) ↔ ctx = none)
    ∧ useAuth (none : Option (AuthValue Action))
        = Except.error "useAuth must be used within an AuthProvider"
    ∧ (∀ v : AuthValue Action, useAuth (some v) = Except.ok v) := by
  refine ⟨?_, rfl, fun v => rfl⟩
  constructor
  · rintro ⟨e, he⟩
    cases ctx with
    | none => rfl
    | some v => exact absurd he (by simp [useAuth])
  · rintro rfl
    exact ⟨_, rfl⟩

/-! ### C9: `fetchFeatureFlags` (src/unnamed/part_000 lines 94–122)

The flag registry `FEATURE_FLAGS` lives in `../config/featureFlags`, which
is not part of the source tree; `fetchFeatureFlags` only uses
`Object.values(FEATURE_FLAGS)`, a collection of `{ key, default }`
records, so the registry is taken as an arbitrary parameter of that
shape. -/

/-- One entry of `Object.values(FEATURE_FLAGS)`. -/
structure Flag where
  key : String
  default : String

/-- The outcome of the Remote Config interaction underneath
`fetchFeatureFlags`: whether `fetchAndActivate` (or anything before it)
fails, and what `getString` returns per key when it succeeds. -/
structure FetchEnv where
  fetchOk : Bool
  delivered : String → String

/-- The `flags` / `fallback` object builders of `fetchFeatureFlags`: one
JS object entry per registry flag, in registry order. -/
def buildFlags (registry : List Flag) (f : Flag → String) : List (String × String) :=
  registry.foldl (fun acc flag => setKey acc flag.key (f flag)) []

/-- `fetchFeatureFlags()` (part_000 lines 94–122): on success one
`getString` value per registered flag; the catch-all returns every flag's
declared default instead of throwing. -/
def fetchFeatureFlags (env : FetchEnv) (registry : List Flag) : List (String × String) :=
  if env.fetchOk then buildFlags registry (fun flag => env.delivered flag.key)
  else buildFlags registry (fun flag => flag.default)

lemma foldl_setKey_fresh (f : Flag → String) :
    ∀ (registry : List Flag) (acc : List (String × String)),
      (registry.map Flag.key).Nodup →
      (∀ fl ∈ registry, acc.any (fun p => p.1 == fl.key) = false) →
      registry.foldl (fun acc flag => setKey acc flag.key (f flag)) acc
        = acc ++ registry.map (fun fl => (fl.key, f fl)) := by
  intro registry
  induction registry with
  | nil => intro acc _ _; simp
  | cons fl rest ih =>
      intro acc hnd hfresh
      rw [List.foldl_cons, setKey, if_neg (by simp [hfresh fl (List.mem_cons_self fl rest)])]
      rw [ih (acc ++ [(fl.key, f fl)]) (List.nodup_cons.mp hnd).2 ?_]
      · simp
      · intro fl' hfl'
        rw [List.any_append]
        have h1 : acc.any (fun p => p.1 == fl'.key) = false :=
          hfresh fl' (List.mem_cons_of_mem fl hfl')
        have h2 : fl.key ≠ fl'.key := by
          intro hc
          exact (List.nodup_cons.mp hnd).1 (hc ▸ List.mem_map_of_mem Flag.key hfl')
        simp [h1, h2]

lemma buildFlags_eq_map (registry : List Flag) (f : Flag → String)
    (hnd : (registry.map Flag.key).Nodup) :
    buildFlags registry f = registry.map (fun fl => (fl.key, f fl)) := by
  rw [buildFlags, foldl_setKey_fresh f registry [] hnd (fun _ _ => rfl), List.nil_append]

/-- C9: `fetchFeatureFlags` never throws — it is a total function of the
fetch outcome — and for every outcome it returns exactly one entry per
flag registered in `FEATURE_FLAGS` (in registry order); when any step of
the fetch fails it maps every flag key to that flag's declared default,
and when the fetch succeeds it maps every flag key to the delivered
`getString` value. -/
theorem fetchFeatureFlags_characterization (env : FetchEnv) (registry : List Flag)
    (hnd : (registry.map Flag.key).Nodup) :
    (fetchFeatureFlags env registry).map Prod.fst = registry.map Flag.key
    ∧ (env.fetchOk = false →
        fetchFeatureFlags env registry = registry.map (fun fl => (fl.key, fl.default)))
    ∧ (env.fetchOk = true →
        fetchFeatureFlags env registry
          = registry.map (fun fl => (fl.key, env.delivered fl.key))) := by
  refine ⟨?_, ?_, ?_⟩
  · rw [fetchFeatureFlags]
    split <;> rw [buildFlags_eq_map _ _ hnd] <;> simp
  · intro hok
    rw [fetchFeatureFlags, if_neg (by simp [hok]), buildFlags_eq_map _ _ hnd]
  · intro hok
    rw [fetchFeatureFlags, if_pos hok, buildFlags_eq_map _ _ hnd]

/-- C9 witness: the characterization on a concrete two-flag registry with
a failing fetch. -/
theorem fetchFeatureFlags_characterization_witness :
    fetchFeatureFlags { fetchOk := false, delivered := fun _ => "x" }
        [{ key := "navigation_banner", default := "control" },
         { key := "checkout_flow", default := "off" }]
      = [("navigation_banner", "control"), ("checkout_flow", "off")] :=
  (fetchFeatureFlags_characterization _ _ (by decide)).2.1 rfl

/-! ### C10: the two `getAccessToken` implementations
(deploy script lines 182–198 and standalone validator lines 18–29) -/

/-- Truthiness of `process.env.FIREBASE_TOKEN`: set and non-empty. -/
def tokenSet (o : Option String) : Bool :=
  match o with
  | none => false
  | some s => s ≠ ""

/-- The deploy script's `getAccessToken` (lines 182–198): even with
`FIREBASE_TOKEN` set it first runs `firebase auth:print-access-token` and
returns the trimmed CLI output, falling back to the environment variable
only when the CLI fails; without the variable a CLI failure throws. -/
def getAccessTokenDeploy (envToken : Option String) (cli : Option String) :
    Except String String :=
  if tokenSet envToken then
    match cli with
    | some t => Except.ok t.trim
    | none => Except.ok (envToken.getD "")
  else
    match cli with
    | some t => Except.ok t.trim
    | none => Except.error
        "Failed to get Firebase access token. Run \"firebase login\" or set FIREBASE_TOKEN env var."

/-- The standalone validator's `getAccessToken` (lines 18–29): with
`FIREBASE_TOKEN` set it returns the variable immediately, without running
the CLI. -/
def getAccessTokenValidator (envToken : Option String) (cli : Option String) :
    Except String String :=
  if tokenSet envToken then Except.ok (envToken.getD "")
  else
    match cli with
    | some t => Except.ok t.trim
    | none => Except.error
        "Failed to get Firebase access token. Run \"firebase login\" or set FIREBASE_TOKEN env var."

/-- C10: in the deploy script the CLI token takes precedence — with
`FIREBASE_TOKEN` set (truthy) the function returns the trimmed CLI output
when the CLI succeeds and the environment variable only on CLI failure;
it throws iff the variable is unset and the CLI fails.  The standalone
validator has the opposite precedence: with the variable set its result
is the variable, independent of anything the CLI would return. -/
theorem getAccessToken_precedence (envToken cli : Option String) :
    (tokenSet envToken = true →
      (∀ t, cli = some t → getAccessTokenDeploy envToken cli = Except.ok t.trim)
      ∧ (cli = none → getAccessTokenDeploy envToken cli = Except.ok (envToken.getD "")))
    ∧ ((∃ e, getAccessTokenDeploy envToken cli = Except.error e)
        ↔ (tokenSet envToken = false ∧ cli = none))
    ∧ (tokenSet envToken = true →
        ∀ cli', getAccessTokenValidator envToken cli = getAccessTokenValidator envToken cli'
          ∧ getAccessTokenValidator envToken cli = Except.ok (envToken.getD "")) := by
  refine ⟨?_, ?_, ?_⟩
  · intro hset
    constructor
    · intro t ht
      rw [getAccessTokenDeploy.eq_def, if_pos hset, ht]
    · intro hnone
      rw [getAccessTokenDeploy.eq_def, if_pos hset, hnone]
  · constructor
    · rintro ⟨e, he⟩
      rw [getAccessTokenDeploy.eq_def] at he
      by_cases hset : tokenSet envToken = true
      · rw [if_pos hset] at he
        cases cli <;> exact absurd he (by simp)
      · rw [if_neg hset] at he
        cases hc : cli with
        | some t => rw [hc] at he; exact absurd he (by simp)
        | none => exact ⟨Bool.eq_false_iff.mpr hset, rfl⟩
    · rintro ⟨hset, hnone⟩
      rw [getAccessTokenDeploy.eq_def, hset, hnone]
      exact ⟨_, rfl⟩
  · intro hset cli'
    rw [getAccessTokenValidator.eq_def, getAccessTokenValidator.eq_def, if_pos hset, if_pos hset]
    exact ⟨rfl, rfl⟩

/-- C10 witness: with `FIREBASE_TOKEN` set and a succeeding CLI, the
deploy script returns the trimmed CLI token while the validator returns
the environment token. -/
theorem getAccessToken_precedence_witness :
    getAccessTokenDeploy (some "env-token") (some "  cli-token\n")
        = Except.ok "  cli-token\n".trim
    ∧ getAccessTokenValidator (some "env-token") (some "  cli-token\n")
        = Except.ok "env-token" :=
  ⟨((getAccessToken_precedence (some "env-token") (some "  cli-token\n")).1
      (by decide)).1 _ rfl,
   (((getAccessToken_precedence (some "env-token") (some "  cli-token\n")).2.2
      (by decide)) none).2⟩

end SecureAgentBase
